import Mathlib

/-!
Verification of the transactional write-overlay for the persistent trie
(`core/store/src/trie/update.rs`).  The overlay (`TrieUpdate`) keeps two
layers above a base trie: a `prospective` map of pending updates and a
`committed` map of append-only per-key change histories.  We embed the
data model and the operations `get_ref`, `contains_key`, `set`, `remove`,
`commit`, `rollback`, `finalize`, `record_contract_call` and
`with_trie_cache_mode` shallowly and prove the specified properties.

External collaborators (the base trie, the accounting-cache switch, the
contract storage tracker, the storage-proof recorder, key serialization
and hashing) live outside the translated file; they are modelled from the
spec as abstract data, with the interfaces the spec assigns them.
-/

/-- Byte strings are lists of naturals (each standing for one byte). -/
abbrev Bytes := List Nat

/-- Modelled from the spec: content hashes (CryptoHash of near-primitives
is external).  We model a hash as a natural number; the default hash is 0. -/
abbrev CryptoHash := Nat

/-- Modelled from the spec: the hash function applied to inline value bytes
(near-primitives `hash`, external).  Any concrete deterministic function
serves the model; behaviour is only compared against stored hashes. -/
def hashBytes (v : Bytes) : CryptoHash :=
  v.foldl (fun a b => (a * 131 + b + 1) % 2 ^ 64) 7

/-- Modelled from the spec: storage errors surfaced by the base trie.
The `MissingTrieValue` variant is matched structurally by
`record_contract_call`; all other failures are collected in `Other`. -/
inductive StorageError where
  | MissingTrieValue (ctx : Nat) (h : CryptoHash)
  | Other (code : Nat)
deriving DecidableEq, Repr

/-- Modelled from the spec: lookup mode passed through to the base trie
(opaque to the overlay). -/
inductive KeyLookupMode where
  | FlatStorage
  | MemOrTrie
deriving DecidableEq, Repr

/-- Modelled from the spec: the trie cache mode of near-primitives; the
accounting-cache switch is enabled exactly for the caching-chunk variant. -/
inductive TrieCacheMode where
  | CachingShard
  | CachingChunk
deriving DecidableEq, Repr

/-- Modelled from the spec: a by-reference value stored in the trie,
carrying the value hash and length. -/
structure ValueRef where
  hash : CryptoHash
  length : Nat
deriving DecidableEq, Repr

/-- Modelled from the spec: token granting access to an inline value. -/
structure ValueAccessToken where
  value : Bytes
deriving DecidableEq, Repr

/-- Modelled from the spec: result of the base trie's optimized-reference
lookup: either a reference (hash + length) or the inlined value itself. -/
inductive OptimizedValueRef where
  | Ref (value_ref : ValueRef)
  | AvailableValue (token : ValueAccessToken)
deriving DecidableEq, Repr

/-- Modelled from the spec: logical trie keys (near-primitives `TrieKey`,
external).  We carry the two variants the overlay inspects
(`ContractData` for the removal-recording check, `ContractCode` for
contract-call recording) and a catch-all for the remaining key kinds. -/
inductive TrieKey where
  | ContractData (account_id : String) (key : Bytes)
  | ContractCode (account_id : String)
  | Other (tag : Nat) (payload : Bytes)
deriving DecidableEq, Repr

/-- Modelled from the spec: serialization of an account id to bytes,
length-prefixed so that serialization stays injective. -/
def accountBytes (a : String) : Bytes :=
  (a.toList.map Char.toNat).length :: a.toList.map Char.toNat

/-- Modelled from the spec: deterministic serialization of a logical key
to bytes (the column-tag-then-payload scheme of near-primitives), such
that byte order of serializations is the trie iteration order. -/
def TrieKey.to_vec : TrieKey → Bytes
  | .ContractData account_id key => 9 :: accountBytes account_id ++ key
  | .ContractCode account_id => 1 :: accountBytes account_id
  | .Other tag payload => 255 :: tag :: payload

/-- Modelled from the spec: opaque cause tag recorded with every committed
change (near-primitives `StateChangeCause`, external). -/
abbrev StateChangeCause := Nat

/-- RawStateChange of near-primitives: one committed change record, the
cause together with the optional new data (`none` is a deletion). -/
structure RawStateChange where
  cause : StateChangeCause
  data : Option Bytes
deriving DecidableEq, Repr

/-- RawStateChangesWithTrieKey of near-primitives: a committed entry, the
logical key together with its chronological, append-only change history. -/
structure RawStateChangesWithTrieKey where
  trie_key : TrieKey
  changes : List RawStateChange
deriving DecidableEq, Repr

/-- TrieKeyValueUpdate: a pending update, the logical key and the optional
value (`none` is an explicit tombstone). -/
structure TrieKeyValueUpdate where
  trie_key : TrieKey
  value : Option Bytes
deriving DecidableEq, Repr

/-- Modelled from the spec: the opaque trie mutation batch returned by the
base trie's batch-update primitive (`TrieChanges`, external). -/
structure TrieChanges where
  batch_id : Nat
deriving DecidableEq, Repr

/-- Modelled from the spec: the contract tracker's finalized output
(`ContractUpdates` of near-primitives, external). -/
structure ContractUpdates where
  contract_accesses : List CryptoHash
  contract_deploys : List CryptoHash
deriving DecidableEq, Repr

/-- Modelled from the spec: the contract storage tracker, an external
collaborator exposing commit/rollback of pending deploys, call recording
and finalization. -/
structure ContractStorage where
  pending_deploys : List CryptoHash
  deploys : List CryptoHash
  calls : List CryptoHash
deriving DecidableEq, Repr

/-- Modelled from the spec: a fresh tracker has no pending state. -/
def ContractStorage.new : ContractStorage :=
  { pending_deploys := [], deploys := [], calls := [] }

/-- Modelled from the spec: commit the tracker's pending deploys. -/
def ContractStorage.commit_deploys (cs : ContractStorage) : ContractStorage :=
  { cs with deploys := cs.deploys ++ cs.pending_deploys, pending_deploys := [] }

/-- Modelled from the spec: discard the tracker's pending deploys. -/
def ContractStorage.rollback_deploys (cs : ContractStorage) : ContractStorage :=
  { cs with pending_deploys := [] }

/-- Modelled from the spec: the tracker's finalized summary. -/
def ContractStorage.fin (cs : ContractStorage) : ContractUpdates :=
  { contract_accesses := cs.calls, contract_deploys := cs.deploys }

/-- Modelled from the spec: the base trie, an external collaborator.  Its
read primitives, batch update and whether a storage-proof recorder is
attached are abstract data of the model. -/
structure Trie where
  get_optimized_ref : Bytes → KeyLookupMode → Except StorageError (Option OptimizedValueRef)
  get_optimized_ref_no_side_effects :
    Bytes → KeyLookupMode → Except StorageError (Option OptimizedValueRef)
  contains_key_base : Bytes → Except StorageError Bool
  update : List (Bytes × Option Bytes) → Except StorageError TrieChanges
  recorder_attached : Bool

/-- TrieUpdateValuePtr: handle returned by `get_ref`, either a reference
into the base trie or the in-memory bytes of an overlay layer. -/
inductive TrieUpdateValuePtr where
  | Ref (value_ref : OptimizedValueRef)
  | MemoryRef (value : Bytes)
deriving DecidableEq, Repr

/-- Sorted-association-list lookup modelling `BTreeMap::get`. -/
def mapLookup {α : Type} : List (Bytes × α) → Bytes → Option α
  | [], _ => none
  | (k, v) :: rest, key => if key = k then some v else mapLookup rest key

/-- Sorted-association-list insert-or-overwrite modelling
`BTreeMap::insert`, keeping keys in ascending byte order. -/
def mapInsert {α : Type} : List (Bytes × α) → Bytes → α → List (Bytes × α)
  | [], key, v => [(key, v)]
  | (k, w) :: rest, key, v =>
    if key < k then (key, v) :: (k, w) :: rest
    else if key = k then (key, v) :: rest
    else (k, w) :: mapInsert rest key v

/-- TrieUpdates: the prospective layer, serialized key to pending update. -/
abbrev TrieUpdates := List (Bytes × TrieKeyValueUpdate)

/-- RawStateChanges: the committed layer, serialized key to change history. -/
abbrev RawStateChanges := List (Bytes × RawStateChangesWithTrieKey)

/-- TrieUpdate: the overlay, owning the base trie handle, the contract
tracker and the two layers.  `recorded_removals` counts the removal
events sent to the attached storage-proof recorder (an external effect
made explicit in the state). -/
structure TrieUpdate where
  trie : Trie
  contract_storage : ContractStorage
  committed : RawStateChanges
  prospective : TrieUpdates
  recorded_removals : Nat

/-- TrieUpdate::new — a fresh overlay over a trie, with empty layers. -/
def TrieUpdate.new (trie : Trie) : TrieUpdate :=
  { trie := trie
    contract_storage := ContractStorage.new
    committed := []
    prospective := []
    recorded_removals := 0 }

/-- TrieUpdate::get_ref — resolve a key through prospective, then the last
committed change record, then the base trie's optimized lookup. -/
def TrieUpdate.get_ref (self : TrieUpdate) (key : TrieKey) (mode : KeyLookupMode) :
    Except StorageError (Option TrieUpdateValuePtr) :=
  let k := key.to_vec
  match mapLookup self.prospective k with
  | some key_value => .ok (key_value.value.map TrieUpdateValuePtr.MemoryRef)
  | none =>
    match (mapLookup self.committed k).bind (fun c => c.changes.getLast?) with
    | some rsc => .ok (rsc.data.map TrieUpdateValuePtr.MemoryRef)
    | none =>
      (self.trie.get_optimized_ref k mode).map
        (fun r => r.map TrieUpdateValuePtr.Ref)

/-- TrieUpdate::contains_key — same priority resolution; a prospective
entry always counts as found (tombstone meaning decided by the payload
being absent), a committed tombstone counts as not contained. -/
def TrieUpdate.contains_key (self : TrieUpdate) (key : TrieKey) :
    Except StorageError Bool :=
  let k := key.to_vec
  if (mapLookup self.prospective k).isSome then .ok true
  else
    match (mapLookup self.committed k).bind (fun c => c.changes.getLast?) with
    | some rsc => .ok rsc.data.isSome
    | none => self.trie.contains_key_base k

/-- TrieUpdate::set — insert or overwrite a pending update carrying the
value in the prospective layer; no other field is touched. -/
def TrieUpdate.set (self : TrieUpdate) (trie_key : TrieKey) (value : Bytes) :
    TrieUpdate :=
  { self with
    prospective :=
      mapInsert self.prospective trie_key.to_vec
        { trie_key := trie_key, value := some value } }

/-- TrieUpdate::remove — record a removal event on the storage-proof
recorder when one is attached and the key is a contract-data key, then
insert a tombstone in the prospective layer. -/
def TrieUpdate.remove (self : TrieUpdate) (trie_key : TrieKey) : TrieUpdate :=
  let recorded :=
    if self.trie.recorder_attached then
      match trie_key with
      | .ContractData _ _ => self.recorded_removals + 1
      | _ => self.recorded_removals
    else self.recorded_removals
  { self with
    recorded_removals := recorded
    prospective :=
      mapInsert self.prospective trie_key.to_vec
        { trie_key := trie_key, value := none } }

/-- Commit of a single drained prospective pair into the committed layer:
append a change record to the entry, creating the entry when absent. -/
def commitOne (committed : RawStateChanges) (event : StateChangeCause)
    (raw_key : Bytes) (kv : TrieKeyValueUpdate) : RawStateChanges :=
  match mapLookup committed raw_key with
  | some c =>
    mapInsert committed raw_key
      { c with changes := c.changes ++ [{ cause := event, data := kv.value }] }
  | none =>
    mapInsert committed raw_key
      { trie_key := kv.trie_key
        changes := [{ cause := event, data := kv.value }] }

/-- TrieUpdate::commit — drain the prospective layer in ascending key
order, folding each pair into the committed layer, then commit the
contract tracker's pending deploys. -/
def TrieUpdate.commit (self : TrieUpdate) (event : StateChangeCause) : TrieUpdate :=
  { self with
    committed :=
      self.prospective.foldl (fun acc p => commitOne acc event p.1 p.2) self.committed
    prospective := []
    contract_storage := self.contract_storage.commit_deploys }

/-- TrieUpdate::rollback — clear the prospective layer and discard the
contract tracker's pending deploys. -/
def TrieUpdate.rollback (self : TrieUpdate) : TrieUpdate :=
  { self with
    prospective := []
    contract_storage := self.contract_storage.rollback_deploys }

/-- TrieUpdateResult: the hand-off value produced by finalize. -/
structure TrieUpdateResult where
  trie : Trie
  trie_changes : TrieChanges
  state_changes : List RawStateChangesWithTrieKey
  contract_updates : ContractUpdates

/-- FinalizeOutcome: finalize either stops execution on a violated
precondition (the Rust assert/expect panics, non-recoverable), surfaces a
storage error, or returns the result. -/
inductive FinalizeOutcome where
  | fatal
  | err (e : StorageError)
  | ok (r : TrieUpdateResult)

/-- Data of the last change record of a committed entry (the entry's
current value); used only after ruling out empty histories. -/
def lastChangeData (c : RawStateChangesWithTrieKey) : Option Bytes :=
  match c.changes.getLast? with
  | some rsc => rsc.data
  | none => none

/-- TrieUpdate::finalize — assert the prospective layer empty (fatal
otherwise), extract the last change record of every committed entry
(fatal when a history is empty, the Rust expect), feed the
(key, last data) pairs in ascending key order into the base trie's batch
update, and return the batch, the full histories in key order, the
contract tracker's finalized output and the original trie handle. -/
def TrieUpdate.finalize (self : TrieUpdate) : FinalizeOutcome :=
  if self.prospective ≠ [] then .fatal
  else if self.committed.any (fun p => p.2.changes.isEmpty) then .fatal
  else
    match self.trie.update (self.committed.map (fun p => (p.1, lastChangeData p.2))) with
    | .error e => .err e
    | .ok trie_changes =>
      .ok
        { trie := self.trie
          trie_changes := trie_changes
          state_changes := self.committed.map (fun p => p.2)
          contract_updates := self.contract_storage.fin }

/-- Modelled from the spec: the protocol version at which the
ExcludeContractCodeFromStateWitness feature turns on (external gating). -/
def excludeContractCodeVersion : Nat := 70

/-- Modelled from the spec: the protocol-feature check gating
record_contract_call's two modes. -/
def excludeContractCodeEnabled (protocol_version : Nat) : Bool :=
  excludeContractCodeVersion ≤ protocol_version

/-- RecordEffect: the external effects record_contract_call can perform,
made explicit as data. -/
inductive RecordEffect where
  | requestCodeRecording (account_id : String)
  | recordCall (code_hash : CryptoHash)
deriving DecidableEq, Repr

/-- TrieUpdate::record_contract_call — legacy mode requests a recorded
code lookup; modern mode short-circuits on the default hash, probes the
contract-code key without side effects, treats a missing-value error or
an absent value as nonexistence, propagates other errors, and records the
call only when the code hash matches the stored reference or the hash of
the inline bytes. -/
def TrieUpdate.record_contract_call (self : TrieUpdate) (account_id : String)
    (code_hash : CryptoHash) (protocol_version : Nat) :
    Except StorageError (List RecordEffect) :=
  if ¬ excludeContractCodeEnabled protocol_version then
    .ok [RecordEffect.requestCodeRecording account_id]
  else if code_hash = (0 : CryptoHash) then
    .ok []
  else
    let trie_key := TrieKey.ContractCode account_id
    let probed : Except StorageError (Option OptimizedValueRef) :=
      match self.trie.get_optimized_ref_no_side_effects trie_key.to_vec
          KeyLookupMode.FlatStorage with
      | .error e =>
        match e with
        | .MissingTrieValue _ _ => .ok none
        | _ => .error e
      | .ok r => .ok r
    match probed with
    | .error e => .error e
    | .ok contract_ref =>
      let contract_exists : Bool :=
        match contract_ref with
        | some (.Ref value_ref) => value_ref.hash = code_hash
        | some (.AvailableValue token) => hashBytes token.value = code_hash
        | none => false
      if contract_exists then .ok [RecordEffect.recordCall code_hash]
      else .ok []

/-- TrieCacheModeGuard — holds the previously-read switch state; dropping
it writes that state back to the switch. -/
structure TrieCacheModeGuard where
  previous : Bool
deriving DecidableEq, Repr

/-- TrieCacheModeGuard::drop — restore the saved switch state. -/
def TrieCacheModeGuard.dropGuard (g : TrieCacheModeGuard) (_switch : Bool) : Bool :=
  g.previous

/-- TrieUpdate::with_trie_cache_mode — read the accounting-cache switch,
set it per the requested mode when one is given, and return the guard
holding the previous state together with the new switch state. -/
def with_trie_cache_mode (switch : Bool) (mode : Option TrieCacheMode) :
    TrieCacheModeGuard × Bool :=
  let previous := switch
  match mode with
  | some m => ({ previous := previous }, m = TrieCacheMode.CachingChunk)
  | none => ({ previous := previous }, switch)

/-- Reachable: overlay states produced from a fresh overlay by the
mutating operations of the open state. -/
inductive Reachable : TrieUpdate → Prop where
  | fresh (trie : Trie) : Reachable (TrieUpdate.new trie)
  | set (tu : TrieUpdate) (k : TrieKey) (v : Bytes) :
      Reachable tu → Reachable (tu.set k v)
  | remove (tu : TrieUpdate) (k : TrieKey) :
      Reachable tu → Reachable (tu.remove k)
  | commit (tu : TrieUpdate) (e : StateChangeCause) :
      Reachable tu → Reachable (tu.commit e)
  | rollback (tu : TrieUpdate) :
      Reachable tu → Reachable tu.rollback

/-- Modelled from the spec: a concrete base trie for concrete instances —
empty, erroring on nothing, with no recorder attached. -/
def trivialTrie : Trie :=
  { get_optimized_ref := fun _ _ => .ok none
    get_optimized_ref_no_side_effects := fun _ _ => .ok none
    contains_key_base := fun _ => .ok false
    update := fun _ => .ok { batch_id := 0 }
    recorder_attached := false }

/-- MapSorted: keys strictly ascending in byte order, the BTreeMap shape. -/
def MapSorted {α : Type} (m : List (Bytes × α)) : Prop :=
  m.Pairwise (fun p q => p.1 < q.1)

theorem mapLookup_mapInsert_self {α : Type} (m : List (Bytes × α)) (k : Bytes) (v : α) :
    mapLookup (mapInsert m k v) k = some v := by
  induction m with
  | nil => simp [mapInsert, mapLookup]
  | cons p rest ih =>
    obtain ⟨k2, w⟩ := p
    by_cases h1 : k < k2
    · simp [mapInsert, h1, mapLookup]
    · by_cases h2 : k = k2
      · simp [mapInsert, h1, h2, mapLookup]
      · simp [mapInsert, h1, h2, mapLookup, ih]

theorem mapLookup_mapInsert_ne {α : Type} (m : List (Bytes × α)) (k k2 : Bytes) (v : α)
    (h : k2 ≠ k) : mapLookup (mapInsert m k v) k2 = mapLookup m k2 := by
  induction m with
  | nil => simp [mapInsert, mapLookup, h]
  | cons p rest ih =>
    obtain ⟨k3, w⟩ := p
    by_cases h1 : k < k3
    · simp [mapInsert, h1, mapLookup, h]
    · by_cases h2 : k = k3
      · subst h2
        simp [mapInsert, h1, mapLookup, h]
      · simp only [mapInsert, h1, h2, if_false, mapLookup]
        by_cases h3 : k2 = k3 <;> simp [h3, ih]

theorem mapLookup_eq_none_of_forall_ne {α : Type} (m : List (Bytes × α)) (k : Bytes)
    (h : ∀ q ∈ m, k ≠ q.1) : mapLookup m k = none := by
  induction m with
  | nil => rfl
  | cons p rest ih =>
    obtain ⟨k2, w⟩ := p
    have hne : k ≠ k2 := h (k2, w) (List.mem_cons_self _ _)
    simp only [mapLookup, hne, if_false]
    exact ih fun q hq => h q (List.mem_cons_of_mem _ hq)

theorem mapInsert_mem {α : Type} (m : List (Bytes × α)) (k : Bytes) (v : α)
    (p : Bytes × α) (hp : p ∈ mapInsert m k v) : p = (k, v) ∨ p ∈ m := by
  induction m with
  | nil =>
    rw [mapInsert, List.mem_singleton] at hp
    exact Or.inl hp
  | cons q rest ih =>
    obtain ⟨k2, w⟩ := q
    by_cases h1 : k < k2
    · rw [mapInsert, if_pos h1] at hp
      rcases List.mem_cons.mp hp with h | h
      · exact Or.inl h
      · exact Or.inr h
    · by_cases h2 : k = k2
      · rw [mapInsert, if_neg h1, if_pos h2] at hp
        rcases List.mem_cons.mp hp with h | h
        · exact Or.inl h
        · exact Or.inr (List.mem_cons_of_mem _ h)
      · rw [mapInsert, if_neg h1, if_neg h2] at hp
        rcases List.mem_cons.mp hp with h | h
        · exact Or.inr (h ▸ List.mem_cons_self _ _)
        · rcases ih h with h3 | h3
          · exact Or.inl h3
          · exact Or.inr (List.mem_cons_of_mem _ h3)

theorem mapInsert_sorted {α : Type} (m : List (Bytes × α)) (k : Bytes) (v : α)
    (h : MapSorted m) : MapSorted (mapInsert m k v) := by
  induction m with
  | nil => simp [mapInsert, MapSorted]
  | cons q rest ih =>
    obtain ⟨k2, w⟩ := q
    rw [MapSorted, List.pairwise_cons] at h
    obtain ⟨hhead, htail⟩ := h
    by_cases h1 : k < k2
    · rw [MapSorted, mapInsert, if_pos h1, List.pairwise_cons]
      refine ⟨?_, List.pairwise_cons.mpr ⟨hhead, htail⟩⟩
      intro q hq
      rcases List.mem_cons.mp hq with hq | hq
      · rw [hq]
        exact h1
      · exact lt_trans h1 (hhead q hq)
    · by_cases h2 : k = k2
      · rw [MapSorted, mapInsert, if_neg h1, if_pos h2, List.pairwise_cons]
        refine ⟨?_, htail⟩
        intro q hq
        have hk2 := hhead q hq
        rw [h2]
        exact hk2
      · rw [MapSorted, mapInsert, if_neg h1, if_neg h2, List.pairwise_cons]
        refine ⟨?_, ih htail⟩
        intro q hq
        rcases mapInsert_mem rest k v q hq with hq2 | hq2
        · rw [hq2]
          exact (lt_or_gt_of_ne h2).resolve_left h1
        · exact hhead q hq2

theorem commitOne_sorted (m : RawStateChanges) (e : StateChangeCause) (rk : Bytes)
    (kv : TrieKeyValueUpdate) (h : MapSorted m) : MapSorted (commitOne m e rk kv) := by
  unfold commitOne
  cases mapLookup m rk <;> exact mapInsert_sorted _ _ _ h

theorem commitOne_nonempty (m : RawStateChanges) (e : StateChangeCause) (rk : Bytes)
    (kv : TrieKeyValueUpdate) (h : ∀ p ∈ m, p.2.changes ≠ [])
    (p : Bytes × RawStateChangesWithTrieKey) (hp : p ∈ commitOne m e rk kv) :
    p.2.changes ≠ [] := by
  unfold commitOne at hp
  cases hm : mapLookup m rk with
  | some c =>
    rw [hm] at hp
    rcases mapInsert_mem _ _ _ _ hp with h2 | h2
    · simp [h2]
    · exact h p h2
  | none =>
    rw [hm] at hp
    rcases mapInsert_mem _ _ _ _ hp with h2 | h2
    · simp [h2]
    · exact h p h2

theorem commitFold_sorted (ps : TrieUpdates) (e : StateChangeCause) (m : RawStateChanges)
    (h : MapSorted m) :
    MapSorted (ps.foldl (fun acc p => commitOne acc e p.1 p.2) m) := by
  induction ps generalizing m with
  | nil => exact h
  | cons a ps ih => exact ih _ (commitOne_sorted _ _ _ _ h)

theorem commitFold_nonempty (ps : TrieUpdates) (e : StateChangeCause) (m : RawStateChanges)
    (h : ∀ p ∈ m, p.2.changes ≠ [])
    (p : Bytes × RawStateChangesWithTrieKey)
    (hp : p ∈ ps.foldl (fun acc p => commitOne acc e p.1 p.2) m) :
    p.2.changes ≠ [] := by
  induction ps generalizing m with
  | nil => exact h p hp
  | cons a ps ih => exact ih _ (fun q hq => commitOne_nonempty _ _ _ _ h q hq) hp

/-- Every reachable overlay state has sorted layers and only non-empty
committed change histories. -/
theorem reachable_invariant (tu : TrieUpdate) (h : Reachable tu) :
    MapSorted tu.prospective ∧ MapSorted tu.committed ∧
      ∀ p ∈ tu.committed, p.2.changes ≠ [] := by
  induction h with
  | fresh trie => exact ⟨List.Pairwise.nil, List.Pairwise.nil, by simp [TrieUpdate.new]⟩
  | set tu k v _ ih =>
    exact ⟨mapInsert_sorted _ _ _ ih.1, ih.2.1, ih.2.2⟩
  | remove tu k _ ih =>
    exact ⟨mapInsert_sorted _ _ _ ih.1, ih.2.1, ih.2.2⟩
  | commit tu e _ ih =>
    exact ⟨List.Pairwise.nil, commitFold_sorted _ _ _ ih.2.1,
      commitFold_nonempty _ _ _ ih.2.2⟩
  | rollback tu _ ih =>
    exact ⟨List.Pairwise.nil, ih.2.1, ih.2.2⟩

theorem commitOne_lookup_self (m : RawStateChanges) (e : StateChangeCause) (rk : Bytes)
    (kv : TrieKeyValueUpdate) :
    mapLookup (commitOne m e rk kv) rk =
      some (match mapLookup m rk with
        | some c => { c with changes := c.changes ++ [{ cause := e, data := kv.value }] }
        | none => { trie_key := kv.trie_key
                    changes := [{ cause := e, data := kv.value }] }) := by
  unfold commitOne
  cases hm : mapLookup m rk <;> simp [mapLookup_mapInsert_self]

theorem commitOne_lookup_ne (m : RawStateChanges) (e : StateChangeCause) (rk : Bytes)
    (kv : TrieKeyValueUpdate) (k : Bytes) (h : k ≠ rk) :
    mapLookup (commitOne m e rk kv) k = mapLookup m k := by
  unfold commitOne
  cases mapLookup m rk <;> exact mapLookup_mapInsert_ne _ _ _ _ h

theorem commitFold_lookup (ps : TrieUpdates) (e : StateChangeCause)
    (m : RawStateChanges) (k : Bytes)
    (hd : ps.Pairwise (fun p q => p.1 ≠ q.1)) :
    mapLookup (ps.foldl (fun acc p => commitOne acc e p.1 p.2) m) k =
      match mapLookup ps k with
      | some kv =>
        some (match mapLookup m k with
          | some c => { c with changes := c.changes ++ [{ cause := e, data := kv.value }] }
          | none => { trie_key := kv.trie_key
                      changes := [{ cause := e, data := kv.value }] })
      | none => mapLookup m k := by
  induction ps generalizing m with
  | nil => rfl
  | cons a ps ih =>
    obtain ⟨ak, av⟩ := a
    rw [List.pairwise_cons] at hd
    obtain ⟨hhead, htail⟩ := hd
    simp only [List.foldl_cons]
    by_cases hk : k = ak
    · subst hk
      have hps : mapLookup ps k = none :=
        mapLookup_eq_none_of_forall_ne ps k (fun q hq => hhead q hq)
      rw [ih _ htail, hps, commitOne_lookup_self]
      simp [mapLookup]
    · have h1 : mapLookup ((ak, av) :: ps) k = mapLookup ps k := by
        simp [mapLookup, hk]
      rw [ih _ htail, h1]
      cases hps : mapLookup ps k with
      | some kv => rw [commitOne_lookup_ne _ _ _ _ _ hk]
      | none => rw [commitOne_lookup_ne _ _ _ _ _ hk]

/-- Bool-valued test for the contract-data key kind, mirroring the
`matches!` check performed by `remove`. -/
def TrieKey.isContractData : TrieKey → Bool
  | .ContractData _ _ => true
  | _ => false

/-- Concrete contract-data key used by the concrete instances. -/
def keyA : TrieKey := TrieKey.ContractData "alice" [100, 111, 103]

/-- Modelled from the spec: a base trie whose no-side-effects contract
probe finds a by-reference value with hash 42. -/
def trieWithRef : Trie :=
  { trivialTrie with
    get_optimized_ref_no_side_effects := fun _ _ =>
      .ok (some (OptimizedValueRef.Ref { hash := 42, length := 3 })) }

/-- Modelled from the spec: a base trie whose no-side-effects contract
probe fails with a missing-trie-value error. -/
def trieMissing : Trie :=
  { trivialTrie with
    get_optimized_ref_no_side_effects := fun _ _ =>
      .error (StorageError.MissingTrieValue 0 5) }

/-- C1: get_ref resolves by layer priority.  A prospective entry for the
serialized key decides the result (its optional bytes, so no value when
tombstoned) without consulting the committed layer or the base trie;
otherwise an existing last change record of the committed entry decides
it; only when neither layer has an entry does get_ref delegate to the
base trie's optimized-reference lookup with the given mode. -/
theorem C1_get_ref_layer_priority (tu : TrieUpdate) (key : TrieKey) (mode : KeyLookupMode) :
    (∀ kv, mapLookup tu.prospective key.to_vec = some kv →
      tu.get_ref key mode = .ok (kv.value.map TrieUpdateValuePtr.MemoryRef)) ∧
    (∀ c rsc, mapLookup tu.prospective key.to_vec = none →
      mapLookup tu.committed key.to_vec = some c →
      c.changes.getLast? = some rsc →
      tu.get_ref key mode = .ok (rsc.data.map TrieUpdateValuePtr.MemoryRef)) ∧
    (mapLookup tu.prospective key.to_vec = none →
      mapLookup tu.committed key.to_vec = none →
      tu.get_ref key mode =
        (tu.trie.get_optimized_ref key.to_vec mode).map
          (fun r => r.map TrieUpdateValuePtr.Ref)) := by
  refine ⟨?_, ?_, ?_⟩
  · intro kv h
    simp [TrieUpdate.get_ref, h]
  · intro c rsc h1 h2 h3
    simp [TrieUpdate.get_ref, h1, h2, h3]
  · intro h1 h2
    simp [TrieUpdate.get_ref, h1, h2]

theorem C1_get_ref_layer_priority_witness :
    ((TrieUpdate.new trivialTrie).set keyA [5]).get_ref keyA KeyLookupMode.FlatStorage
        = .ok (some (TrieUpdateValuePtr.MemoryRef [5])) ∧
    (((TrieUpdate.new trivialTrie).set keyA [5]).commit 7).get_ref keyA
        KeyLookupMode.FlatStorage = .ok (some (TrieUpdateValuePtr.MemoryRef [5])) ∧
    (TrieUpdate.new trivialTrie).get_ref keyA KeyLookupMode.FlatStorage = .ok none := by
  refine ⟨?_, ?_, ?_⟩
  · exact (C1_get_ref_layer_priority _ keyA KeyLookupMode.FlatStorage).1
      { trie_key := keyA, value := some [5] } rfl
  · exact (C1_get_ref_layer_priority _ keyA KeyLookupMode.FlatStorage).2.1
      { trie_key := keyA, changes := [{ cause := 7, data := some [5] }] }
      { cause := 7, data := some [5] } rfl rfl rfl
  · have h := (C1_get_ref_layer_priority (TrieUpdate.new trivialTrie) keyA
      KeyLookupMode.FlatStorage).2.2 rfl rfl
    rw [h]
    rfl

/-- C2 counterexample: in the source, contains_key returns Ok(true) as
soon as the prospective layer contains the key at all, so after remove(k)
on a fresh overlay it returns true, not false as the claim states. -/
theorem C2_prospective_tombstone_contained_counterexample :
    ((TrieUpdate.new trivialTrie).remove keyA).contains_key keyA = .ok true ∧
    ((TrieUpdate.new trivialTrie).remove keyA).contains_key keyA ≠ .ok false := by
  constructor
  · rfl
  · intro hcon
    rw [show ((TrieUpdate.new trivialTrie).remove keyA).contains_key keyA
        = Except.ok true from rfl] at hcon
    exact Bool.noConfusion (Except.ok.inj hcon)

/-- C2 (amended): after remove(k) and before any commit or rollback,
get_ref(k) returns no value regardless of the committed layer or the base
trie; contains_key(k), however, returns true, because any prospective
entry — a tombstone included — counts as contained; only a tombstone in
the committed layer counts as not contained. -/
theorem C2_remove_tombstone_amended (tu : TrieUpdate) (k : TrieKey) (mode : KeyLookupMode) :
    ((tu.remove k).get_ref k mode = .ok none) ∧
    ((tu.remove k).contains_key k = .ok true) ∧
    (∀ cause, mapLookup tu.prospective k.to_vec = none →
      (mapLookup tu.committed k.to_vec).bind (fun c => c.changes.getLast?) =
        some { cause := cause, data := none } →
      tu.contains_key k = .ok false) := by
  refine ⟨?_, ?_, ?_⟩
  · simp [TrieUpdate.get_ref, TrieUpdate.remove, mapLookup_mapInsert_self]
  · simp [TrieUpdate.contains_key, TrieUpdate.remove, mapLookup_mapInsert_self]
  · intro cause h1 h2
    simp [TrieUpdate.contains_key, h1, h2]

theorem C2_remove_tombstone_amended_witness :
    (((TrieUpdate.new trivialTrie).remove keyA).get_ref keyA KeyLookupMode.FlatStorage
        = .ok none) ∧
    ((((TrieUpdate.new trivialTrie).remove keyA).commit 3).contains_key keyA
        = .ok false) := by
  constructor
  · exact (C2_remove_tombstone_amended (TrieUpdate.new trivialTrie) keyA
      KeyLookupMode.FlatStorage).1
  · exact (C2_remove_tombstone_amended (((TrieUpdate.new trivialTrie).remove keyA).commit 3)
      keyA KeyLookupMode.FlatStorage).2.2 3 rfl rfl

/-- C3: finalize with a non-empty prospective layer stops execution with
the fatal (non-recoverable) outcome; the pending changes are never folded
into a result. -/
theorem C3_finalize_nonempty_prospective_fatal (tu : TrieUpdate)
    (h : tu.prospective ≠ []) : tu.finalize = FinalizeOutcome.fatal := by
  unfold TrieUpdate.finalize
  rw [if_pos h]

theorem C3_finalize_nonempty_prospective_fatal_witness :
    ((TrieUpdate.new trivialTrie).set keyA [1]).prospective ≠ [] ∧
    ((TrieUpdate.new trivialTrie).set keyA [1]).finalize = FinalizeOutcome.fatal := by
  have h : ((TrieUpdate.new trivialTrie).set keyA [1]).prospective ≠ [] := by
    intro hcon
    exact List.noConfusion hcon
  exact ⟨h, C3_finalize_nonempty_prospective_fatal _ h⟩

/-- C4: commit(cause) atomically drains the prospective layer, commits
the tracker's pending deploys, and for each drained pair appends exactly
one change record {cause, data} to the committed entry of that key,
creating the entry when absent and leaving every other entry and all
existing records untouched. -/
theorem C4_commit_drains_and_appends (tu : TrieUpdate) (event : StateChangeCause)
    (h : Reachable tu) :
    (tu.commit event).prospective = [] ∧
    (tu.commit event).contract_storage = tu.contract_storage.commit_deploys ∧
    ∀ k, mapLookup (tu.commit event).committed k =
      match mapLookup tu.prospective k with
      | some kv =>
        some (match mapLookup tu.committed k with
          | some c => { c with changes := c.changes ++ [{ cause := event, data := kv.value }] }
          | none => { trie_key := kv.trie_key
                      changes := [{ cause := event, data := kv.value }] })
      | none => mapLookup tu.committed k := by
  refine ⟨rfl, rfl, ?_⟩
  intro k
  have hs : tu.prospective.Pairwise (fun p q => p.1 < q.1) :=
    (reachable_invariant tu h).1
  have hd : tu.prospective.Pairwise (fun p q => p.1 ≠ q.1) :=
    hs.imp (fun hlt => ne_of_lt hlt)
  exact commitFold_lookup tu.prospective event tu.committed k hd

theorem C4_commit_drains_and_appends_witness :
    mapLookup (((((TrieUpdate.new trivialTrie).set keyA [1]).commit 3).set keyA
          [2]).commit 4).committed keyA.to_vec
      = some { trie_key := keyA
               changes := [{ cause := 3, data := some [1] },
                           { cause := 4, data := some [2] }] } ∧
    (((((TrieUpdate.new trivialTrie).set keyA [1]).commit 3).set keyA [2]).commit
        4).prospective = [] := by
  have hr : Reachable ((((TrieUpdate.new trivialTrie).set keyA [1]).commit 3).set keyA [2]) :=
    Reachable.set _ keyA [2]
      (Reachable.commit _ 3 (Reachable.set _ keyA [1] (Reachable.fresh trivialTrie)))
  refine ⟨?_, (C4_commit_drains_and_appends _ 4 hr).1⟩
  have h := (C4_commit_drains_and_appends _ 4 hr).2.2 keyA.to_vec
  rw [h]
  rfl

/-- C5: finalize on an overlay with empty prospective layer feeds the
committed entries, in ascending serialized-key byte order, as
(key, data of the last change record) pairs into the base trie's batch
update, and returns that batch together with the full per-key change
histories in the same order, the contract tracker's finalized output and
the original trie handle. -/
theorem C5_finalize_feeds_batch_update (tu : TrieUpdate) (tc : TrieChanges)
    (h : Reachable tu) (hp : tu.prospective = [])
    (hu : tu.trie.update (tu.committed.map (fun p => (p.1, lastChangeData p.2))) = .ok tc) :
    tu.finalize = FinalizeOutcome.ok
      { trie := tu.trie
        trie_changes := tc
        state_changes := tu.committed.map (fun p => p.2)
        contract_updates := tu.contract_storage.fin } ∧
    (tu.committed.map (fun p => (p.1, lastChangeData p.2))).Pairwise
      (fun a b => a.1 < b.1) := by
  constructor
  · unfold TrieUpdate.finalize
    rw [if_neg (fun hcon => hcon hp)]
    have hne := (reachable_invariant tu h).2.2
    have hany : tu.committed.any (fun p => p.2.changes.isEmpty) = false := by
      rw [List.any_eq_false]
      intro p hp2
      simpa [List.isEmpty_iff] using hne p hp2
    rw [if_neg (by simp [hany])]
    rw [hu]
  · exact List.Pairwise.map _ (fun a b hab => hab) ((reachable_invariant tu h).2.1)

theorem C5_finalize_feeds_batch_update_witness :
    (((TrieUpdate.new trivialTrie).set keyA [1]).commit 3).finalize = FinalizeOutcome.ok
      { trie := (((TrieUpdate.new trivialTrie).set keyA [1]).commit 3).trie
        trie_changes := { batch_id := 0 }
        state_changes := [{ trie_key := keyA
                            changes := [{ cause := 3, data := some [1] }] }]
        contract_updates := { contract_accesses := [], contract_deploys := [] } } := by
  have hr : Reachable (((TrieUpdate.new trivialTrie).set keyA [1]).commit 3) :=
    Reachable.commit _ 3 (Reachable.set _ keyA [1] (Reachable.fresh trivialTrie))
  have h := (C5_finalize_feeds_batch_update _ { batch_id := 0 } hr rfl rfl).1
  rw [h]
  rfl

/-- C6: rollback empties the prospective layer and discards the
tracker's pending deploys while leaving the committed layer and the trie
untouched; a set followed by rollback yields exactly the state rollback
alone yields, so contains_key and get_ref reflect only the pre-set
committed and base state. -/
theorem C6_rollback_isolation (tu : TrieUpdate) (k : TrieKey) (v : Bytes)
    (mode : KeyLookupMode) :
    tu.rollback.prospective = [] ∧
    tu.rollback.committed = tu.committed ∧
    tu.rollback.trie = tu.trie ∧
    tu.rollback.contract_storage = tu.contract_storage.rollback_deploys ∧
    (tu.set k v).rollback = tu.rollback ∧
    (tu.set k v).rollback.contains_key k = tu.rollback.contains_key k ∧
    (tu.set k v).rollback.get_ref k mode = tu.rollback.get_ref k mode :=
  ⟨rfl, rfl, rfl, rfl, rfl, rfl, rfl⟩

/-- C7: remove(key) records a removal event on the storage-proof recorder
exactly when the key is a contract-storage-data key and a recorder is
attached to the trie; in every case it writes the tombstone into the
prospective layer and touches nothing else. -/
theorem C7_remove_records_removal (tu : TrieUpdate) (k : TrieKey) :
    ((tu.remove k).recorded_removals =
      if tu.trie.recorder_attached && k.isContractData then
        tu.recorded_removals + 1
      else tu.recorded_removals) ∧
    (tu.remove k).prospective =
      mapInsert tu.prospective k.to_vec { trie_key := k, value := none } ∧
    (tu.remove k).committed = tu.committed ∧
    (tu.remove k).contract_storage = tu.contract_storage ∧
    (tu.remove k).trie = tu.trie := by
  refine ⟨?_, rfl, rfl, rfl, rfl⟩
  cases k <;>
    cases hr : tu.trie.recorder_attached <;>
      simp [TrieUpdate.remove, TrieKey.isContractData, hr]

/-- C8: in modern mode record_contract_call succeeds at once on the
default hash; otherwise the side-effect-free probe of the account's
contract-code key decides: a missing-value error or an absent value means
the contract does not exist (success, nothing recorded), any other error
propagates, and on a found value the call is forwarded to the tracker
exactly when the code hash matches the stored reference's hash or the
hash of the inline bytes. -/
theorem C8_record_contract_call_modern (tu : TrieUpdate) (account_id : String)
    (code_hash : CryptoHash) (pv : Nat) (hf : excludeContractCodeEnabled pv = true) :
    (code_hash = 0 → tu.record_contract_call account_id code_hash pv = .ok []) ∧
    (code_hash ≠ 0 →
      (∀ c h2, tu.trie.get_optimized_ref_no_side_effects
            (TrieKey.ContractCode account_id).to_vec KeyLookupMode.FlatStorage
          = .error (StorageError.MissingTrieValue c h2) →
        tu.record_contract_call account_id code_hash pv = .ok []) ∧
      (tu.trie.get_optimized_ref_no_side_effects
            (TrieKey.ContractCode account_id).to_vec KeyLookupMode.FlatStorage
          = .ok none →
        tu.record_contract_call account_id code_hash pv = .ok []) ∧
      (∀ n, tu.trie.get_optimized_ref_no_side_effects
            (TrieKey.ContractCode account_id).to_vec KeyLookupMode.FlatStorage
          = .error (StorageError.Other n) →
        tu.record_contract_call account_id code_hash pv
          = .error (StorageError.Other n)) ∧
      (∀ vr, tu.trie.get_optimized_ref_no_side_effects
            (TrieKey.ContractCode account_id).to_vec KeyLookupMode.FlatStorage
          = .ok (some (OptimizedValueRef.Ref vr)) →
        tu.record_contract_call account_id code_hash pv
          = .ok (if vr.hash = code_hash then [RecordEffect.recordCall code_hash]
                 else [])) ∧
      (∀ t, tu.trie.get_optimized_ref_no_side_effects
            (TrieKey.ContractCode account_id).to_vec KeyLookupMode.FlatStorage
          = .ok (some (OptimizedValueRef.AvailableValue t)) →
        tu.record_contract_call account_id code_hash pv
          = .ok (if hashBytes t.value = code_hash then
                   [RecordEffect.recordCall code_hash]
                 else []))) := by
  constructor
  · intro h0
    simp [TrieUpdate.record_contract_call, hf, h0]
  · intro hnz
    refine ⟨?_, ?_, ?_, ?_, ?_⟩
    · intro c h2 hprobe
      simp [TrieUpdate.record_contract_call, hf, hnz, hprobe]
    · intro hprobe
      simp [TrieUpdate.record_contract_call, hf, hnz, hprobe]
    · intro n hprobe
      simp [TrieUpdate.record_contract_call, hf, hnz, hprobe]
    · intro vr hprobe
      by_cases hh : vr.hash = code_hash <;>
        simp [TrieUpdate.record_contract_call, hf, hnz, hprobe, hh]
    · intro t hprobe
      by_cases hh : hashBytes t.value = code_hash <;>
        simp [TrieUpdate.record_contract_call, hf, hnz, hprobe, hh]

theorem C8_record_contract_call_modern_witness :
    excludeContractCodeEnabled 70 = true ∧
    (TrieUpdate.new trivialTrie).record_contract_call "alice" 0 70 = .ok [] ∧
    (TrieUpdate.new trieMissing).record_contract_call "alice" 42 70 = .ok [] ∧
    (TrieUpdate.new trivialTrie).record_contract_call "alice" 42 70 = .ok [] ∧
    (TrieUpdate.new trieWithRef).record_contract_call "alice" 42 70
      = .ok [RecordEffect.recordCall 42] := by
  refine ⟨rfl, ?_, ?_, ?_, ?_⟩
  · exact (C8_record_contract_call_modern (TrieUpdate.new trivialTrie) "alice" 0 70
      rfl).1 rfl
  · exact ((C8_record_contract_call_modern (TrieUpdate.new trieMissing) "alice" 42 70
      rfl).2 (by decide)).1 0 5 rfl
  · exact ((C8_record_contract_call_modern (TrieUpdate.new trivialTrie) "alice" 42 70
      rfl).2 (by decide)).2.1 rfl
  · have h := ((C8_record_contract_call_modern (TrieUpdate.new trieWithRef) "alice" 42 70
      rfl).2 (by decide)).2.2.2.1 { hash := 42, length := 3 } rfl
    rw [h]
    rfl

/-- C9: with_trie_cache_mode applied to a prior switch state sets the
switch to whether the requested mode is the caching-chunk variant when a
mode is given and leaves it unchanged when none is, and the returned
guard's drop restores the prior state from any intervening switch state,
so the state after the scope equals the state before it. -/
theorem C9_cache_guard_restores (Y : Bool) (mode : Option TrieCacheMode) :
    (∀ X, mode = some X →
      (with_trie_cache_mode Y mode).2 = decide (X = TrieCacheMode.CachingChunk)) ∧
    (mode = none → (with_trie_cache_mode Y mode).2 = Y) ∧
    (∀ s : Bool, (with_trie_cache_mode Y mode).1.dropGuard s = Y) := by
  refine ⟨?_, ?_, ?_⟩
  · intro X hX
    subst hX
    rfl
  · intro h
    subst h
    rfl
  · intro s
    cases mode <;> rfl

theorem C9_cache_guard_restores_witness :
    (with_trie_cache_mode false (some TrieCacheMode.CachingChunk)).2 = true ∧
    (with_trie_cache_mode true none).2 = true ∧
    (with_trie_cache_mode false (some TrieCacheMode.CachingChunk)).1.dropGuard true
      = false := by
  refine ⟨?_, ?_,
    (C9_cache_guard_restores false (some TrieCacheMode.CachingChunk)).2.2 true⟩
  · have h := (C9_cache_guard_restores false (some TrieCacheMode.CachingChunk)).1
      TrieCacheMode.CachingChunk rfl
    rw [h]
    rfl
  · exact (C9_cache_guard_restores true none).2.1 rfl

/-- C10: in every overlay state reachable from a fresh overlay via set,
remove, commit and rollback, every committed entry has a non-empty change
history, so finalize on an empty prospective layer never hits the fatal
missing-record extraction. -/
theorem C10_committed_histories_nonempty (tu : TrieUpdate) (h : Reachable tu) :
    (∀ p ∈ tu.committed, p.2.changes ≠ []) ∧
    (tu.prospective = [] → tu.finalize ≠ FinalizeOutcome.fatal) := by
  refine ⟨(reachable_invariant tu h).2.2, ?_⟩
  intro hp
  unfold TrieUpdate.finalize
  rw [if_neg (fun hcon => hcon hp)]
  have hne := (reachable_invariant tu h).2.2
  have hany : tu.committed.any (fun p => p.2.changes.isEmpty) = false := by
    rw [List.any_eq_false]
    intro p hp2
    simpa [List.isEmpty_iff] using hne p hp2
  rw [if_neg (by simp [hany])]
  cases hupd : tu.trie.update (tu.committed.map (fun p => (p.1, lastChangeData p.2))) <;>
    simp

theorem C10_committed_histories_nonempty_witness :
    (((TrieUpdate.new trivialTrie).set keyA [1]).commit 3).finalize
      ≠ FinalizeOutcome.fatal := by
  have hr : Reachable (((TrieUpdate.new trivialTrie).set keyA [1]).commit 3) :=
    Reachable.commit _ 3 (Reachable.set _ keyA [1] (Reachable.fresh trivialTrie))
  exact (C10_committed_histories_nonempty _ hr).2 rfl
